import Mathlib

/-!
Shallow embedding of `src/local_semaphore.rs` (TPC-TiKV/glommio): a counting
semaphore for single-threaded cooperative schedulers.

Modelling choices:
* `u64` is modelled as `Nat`; the single place where overflow matters
  (`State::signal`'s `self.avail += units`) reduces modulo `2 ^ 64`.
* The Rust queue `VecDeque<*mut Waiter>` stores raw pointers into waiters
  owned by suspended tasks.  We model the pointer store as a heap
  `List Waiter` addressed by index, and the queue as `List Nat` of heap
  indices (front of the deque = head of the list).  Allocation
  (`Box::new` in `State::queue`) appends to the heap, so a fresh pointer is
  the old heap length.
* Fallible Rust functions returning `Result` are modelled with `Except`.
-/

/-- `2 ^ 64`, the modulus of Rust's `u64`. -/
def U64MOD : Nat := 2 ^ 64

/-- Rust `struct Waiter { units: u64, woken: bool, waker: Option<Waker> }`.
The waker's identity is irrelevant to the state machine, so it is `Unit`. -/
structure Waiter where
  units : Nat
  woken : Bool
  waker : Option Unit
deriving DecidableEq, Repr

/-- `Waiter::new(units)`. -/
def Waiter.new (units : Nat) : Waiter :=
  { units := units, woken := false, waker := none }

/-- Result of `Future::poll`. -/
inductive PollRes where
  | ready
  | pending
deriving DecidableEq, Repr

/-- `impl Future for Waiter`: if `woken`, return `Ready`; otherwise store the
context's waker and return `Pending`.  Returns the poll result and the
updated waiter. -/
def Waiter.poll (w : Waiter) : PollRes × Waiter :=
  if w.woken then (PollRes.ready, w)
  else (PollRes.pending, { w with waker := some () })

/-- `Waiter::wake`: `if let Some(waker) = self.waker.take() { self.woken =
true; waker.wake(); }`.  Returns the updated waiter and whether the stored
waker actually fired. -/
def Waiter.wake (w : Waiter) : Waiter × Bool :=
  match w.waker with
  | some _ => ({ w with woken := true, waker := none }, true)
  | none => (w, false)

/-- The heap of waiters owned by suspended tasks; a "pointer" is an index. -/
abbrev Heap := List Waiter

/-- Dereference a pointer and run `Waiter::wake` through it (the
`unsafe { &mut *w }; waiter.wake()` pattern of the source). -/
def wakeAt (h : Heap) (wid : Nat) : Heap :=
  match h[wid]? with
  | some w => h.set wid (Waiter.wake w).1
  | none => h

/-- Dereference a pointer and poll the waiter through it (what `waiter.await`
does on the suspended task's side). -/
def pollAt (h : Heap) (wid : Nat) : Heap :=
  match h[wid]? with
  | some w => h.set wid (Waiter.poll w).2
  | none => h

/-- The single error kind of the source: `Error::new(ErrorKind::BrokenPipe,
"Semaphore Broken")`. -/
inductive SemError where
  | brokenSemaphore
deriving DecidableEq, Repr

/-- Rust `struct State { avail: u64, list: VecDeque<*mut Waiter>, closed:
bool }`. -/
structure State where
  avail : Nat
  list : List Nat
  closed : Bool
deriving DecidableEq, Repr

/-- `State::new(avail)`. -/
def State.new (avail : Nat) : State :=
  { avail := avail, list := [], closed := false }

/-- `State::available`. -/
def State.available (s : State) : Nat :=
  s.avail

/-- `State::try_acquire(units)`: error if closed; grant (decrement) iff the
queue is empty and `avail >= units`; otherwise report `false`. -/
def State.try_acquire (s : State) (units : Nat) : Except SemError Bool × State :=
  if s.closed then (Except.error SemError.brokenSemaphore, s)
  else if s.list.isEmpty && decide (units ≤ s.avail) then
    (Except.ok true, { s with avail := s.avail - units })
  else (Except.ok false, s)

/-- `State::queue(units)`: allocate a fresh `Waiter` (`Box::new`) and push a
pointer to it at the back of the queue.  Returns the updated state, the
updated heap, and the fresh pointer. -/
def State.queueWaiter (s : State) (h : Heap) (units : Nat) : State × Heap × Nat :=
  ({ s with list := s.list ++ [h.length] }, h ++ [Waiter.new units], h.length)

/-- `State::close`: set `closed`, then pop every queued pointer and call
`Waiter::wake` through it. -/
def State.close (s : State) (h : Heap) : State × Heap :=
  ({ s with closed := true, list := [] }, s.list.foldl wakeAt h)

/-- `State::signal(units)`: `self.avail += units` (u64 wraparound), then if
the queue head's requested units are now covered, pop it and return its
pointer; otherwise return `None`. -/
def State.signal (s : State) (h : Heap) (units : Nat) : State × Option Nat :=
  let avail := (s.avail + units) % U64MOD
  match s.list with
  | [] => ({ s with avail := avail }, none)
  | wid :: rest =>
    match h[wid]? with
    | some w =>
      if w.units ≤ avail then ({ s with avail := avail, list := rest }, some wid)
      else ({ s with avail := avail }, none)
    | none => ({ s with avail := avail }, none)

/-- `Semaphore::signal(units)`: run `State::signal` and wake the returned
waiter, if any. -/
def Semaphore.signal (s : State) (h : Heap) (units : Nat) : State × Heap :=
  match State.signal s h units with
  | (s', some wid) => (s', wakeAt h wid)
  | (s', none) => (s', h)

/-- Rust `struct Permit { units: u64, .. }` (the shared state reference is
passed explicitly in this embedding). -/
structure Permit where
  units : Nat
deriving DecidableEq, Repr

/-- `impl Drop for Permit`: `self.sem.borrow_mut().signal(self.units)`, then
wake the returned waiter, if any. -/
def Permit.drop (p : Permit) (s : State) (h : Heap) : State × Heap :=
  match State.signal s h p.units with
  | (s', some wid) => (s', wakeAt h wid)
  | (s', none) => (s', h)

/-- One iteration of the `Semaphore::acquire(units)` loop, as seen by the
calling task: either the grant succeeds, or the semaphore is broken, or a
fresh waiter is queued at the tail (and the task will suspend on it). -/
inductive AcquireStep where
  | granted (s : State)
  | broken (s : State)
  | queued (s : State) (h : Heap) (wid : Nat)
deriving Repr

/-- One iteration of `Semaphore::acquire`: `try_acquire`, propagating the
error with `?`, returning on `true`, and calling `State::queue` on `false`. -/
def Semaphore.acquireStep (s : State) (h : Heap) (units : Nat) : AcquireStep :=
  match State.try_acquire s units with
  | (Except.error _, s') => AcquireStep.broken s'
  | (Except.ok true, s') => AcquireStep.granted s'
  | (Except.ok false, s') =>
    let (s'', h', wid) := State.queueWaiter s' h units
    AcquireStep.queued s'' h' wid

/-! ### Scenario drivers (clients of the semaphore operations)

These compose the embedded operations exactly the way client tasks do: a
task whose grant check fails queues a waiter and immediately polls it
(`waiter.await` registers the waker before the task suspends). -/

/-- A queued waiter as it looks right after the suspending task's first
poll: waker registered, not yet woken. -/
def polledWaiter (u : Nat) : Waiter :=
  { units := u, woken := false, waker := some () }

/-- Issue one `acquire(u)` iteration per unit count in `us`, in order; a
task that queues polls its waiter and suspends. -/
def acquirePhase : List Nat → State → Heap → State × Heap
  | [], s, h => (s, h)
  | u :: us, s, h =>
    match Semaphore.acquireStep s h u with
    | AcquireStep.granted s1 => acquirePhase us s1 h
    | AcquireStep.broken s1 => acquirePhase us s1 h
    | AcquireStep.queued s1 h1 wid => acquirePhase us s1 (pollAt h1 wid)

/-- Issue one `Semaphore::signal(u)` per unit count in `us`, in order. -/
def signalPhase : List Nat → State → Heap → State × Heap
  | [], s, h => (s, h)
  | u :: us, s, h =>
    match Semaphore.signal s h u with
    | (s1, h1) => signalPhase us s1 h1

/-- Woken tasks re-run their `acquire` iteration in wake order; `ts` pairs
each task's id with its requested units.  Returns the final state and heap
and the task ids granted, in grant order. -/
def retryPhase : List (Nat × Nat) → State → Heap → State × Heap × List Nat
  | [], s, h => (s, h, [])
  | (tid, u) :: ts, s, h =>
    match Semaphore.acquireStep s h u with
    | AcquireStep.granted s1 =>
      match retryPhase ts s1 h with
      | (sf, hf, g) => (sf, hf, tid :: g)
    | AcquireStep.broken s1 => retryPhase ts s1 h
    | AcquireStep.queued s1 h1 wid => retryPhase ts s1 (pollAt h1 wid)

/-- The FIFO scenario of the grant-order property: every `acquire` is
issued while no units are available, then the signals run (each releasing
exactly the head request's units), then the woken tasks retry in wake
order. -/
def fifoScenario (us : List Nat) : State × Heap × List Nat :=
  let r1 := acquirePhase us (State.new 0) []
  let r2 := signalPhase us r1.1 r1.2
  retryPhase us.enum r2.1 r2.2

/-- An externally observable event for the conservation property: an
immediate grant, or a release of previously granted units. -/
inductive SemEvent where
  | acquire (u : Nat)
  | release (u : Nat)
deriving DecidableEq, Repr

/-- Replay a trace with no in-flight acquisitions: each `acquire u` must be
granted on the spot (`try_acquire` returns `true`), each `release u`
returns `u` units held by a live permit or unreleased manual acquisition
(via `Semaphore::signal`, which is also `Permit::drop`).  `held` tracks the
outstanding unit counts. -/
def runConserve : List SemEvent → State → Heap → List Nat → Option (State × Heap × List Nat)
  | [], s, h, held => some (s, h, held)
  | SemEvent.acquire u :: evs, s, h, held =>
    match State.try_acquire s u with
    | (Except.ok true, s1) => runConserve evs s1 h (u :: held)
    | _ => none
  | SemEvent.release u :: evs, s, h, held =>
    if u ∈ held then
      match Semaphore.signal s h u with
      | (s1, h1) => runConserve evs s1 h1 (held.erase u)
    else none

/-! ## Helper lemmas -/

/-- `State::signal` always sets `avail := (avail + units) % 2^64`, whatever
the queue and the closed flag hold. -/
theorem signal_fst_avail (s : State) (h : Heap) (u : Nat) :
    (State.signal s h u).1.avail = (s.avail + u) % U64MOD := by
  unfold State.signal
  cases hl : s.list with
  | nil => simp
  | cons wid rest =>
    cases hw : h[wid]? with
    | none => simp [hw]
    | some w =>
      by_cases hle : w.units ≤ (s.avail + u) % U64MOD <;> simp [hw, hle]

/-- `State::signal` never touches the closed flag. -/
theorem signal_fst_closed (s : State) (h : Heap) (u : Nat) :
    (State.signal s h u).1.closed = s.closed := by
  unfold State.signal
  cases hl : s.list with
  | nil => simp
  | cons wid rest =>
    cases hw : h[wid]? with
    | none => simp [hw]
    | some w =>
      by_cases hle : w.units ≤ (s.avail + u) % U64MOD <;> simp [hw, hle]

/-- `Semaphore::signal` wakes through the pointer `State::signal` returns. -/
theorem Semaphore.signal_eq (s : State) (h : Heap) (u : Nat) :
    Semaphore.signal s h u =
      ((State.signal s h u).1,
        match (State.signal s h u).2 with
        | some wid => wakeAt h wid
        | none => h) := by
  unfold Semaphore.signal
  cases hs : State.signal s h u with
  | mk s' o => cases o <;> simp

/-- `State::signal` pops nothing, or pops exactly the queue head. -/
theorem signal_pops_head (s : State) (h : Heap) (u : Nat) :
    (State.signal s h u).2 = none ∨
      ∃ wid rest, s.list = wid :: rest ∧ (State.signal s h u).2 = some wid := by
  unfold State.signal
  cases hl : s.list with
  | nil => left; simp
  | cons wid rest =>
    cases hw : h[wid]? with
    | none => left; simp [hw]
    | some w =>
      by_cases hle : w.units ≤ (s.avail + u) % U64MOD
      · right; exact ⟨wid, rest, rfl, by simp [hw, hle]⟩
      · left; simp [hw, hle]

/-! ## C1: immediate-grant condition of `State::try_acquire` -/

/-- C1: on an open semaphore, `State::try_acquire` succeeds (returning
`Ok(true)`) and decrements `avail` by exactly `n` iff the waiter queue is
empty and `avail ≥ n`; in every other open state it returns `Ok(false)` with
`avail` and the queue unchanged, even when `avail ≥ n` but the queue is
non-empty. -/
theorem try_acquire_spec (s : State) (n : Nat) (hopen : s.closed = false) :
    (s.list = [] ∧ n ≤ s.avail →
      State.try_acquire s n = (Except.ok true, { s with avail := s.avail - n })) ∧
    (¬(s.list = [] ∧ n ≤ s.avail) →
      State.try_acquire s n = (Except.ok false, s)) ∧
    ((State.try_acquire s n).1 = Except.ok true ↔ s.list = [] ∧ n ≤ s.avail) := by
  refine ⟨?_, ?_, ?_⟩
  · rintro ⟨hl, ha⟩
    simp [State.try_acquire, hopen, hl, ha]
  · intro hno
    by_cases hl : s.list = []
    · have ha : ¬n ≤ s.avail := fun ha => hno ⟨hl, ha⟩
      simp [State.try_acquire, hopen, hl, ha]
    · simp [State.try_acquire, hopen, hl]
  · by_cases hl : s.list = [] <;> by_cases ha : n ≤ s.avail <;>
      simp [State.try_acquire, hopen, hl, ha]

theorem try_acquire_spec_witness :
    State.try_acquire (State.new 5) 3
        = (Except.ok true, { State.new 5 with avail := (State.new 5).avail - 3 }) ∧
    State.try_acquire { avail := 5, list := [0], closed := false } 3
        = (Except.ok false, { avail := 5, list := [0], closed := false }) :=
  ⟨(try_acquire_spec (State.new 5) 3 rfl).1 ⟨rfl, by decide⟩,
   (try_acquire_spec { avail := 5, list := [0], closed := false } 3 rfl).2.1 (by decide)⟩

/-! ## C3: `State::signal` / `Semaphore::signal` behaviour -/

/-- C3: for every state, open or closed, `signal(u)` adds `u` to `avail`
(u64 wraparound, the closed flag is neither checked nor changed), then
inspects only the queue head: the head is popped (and returned for waking)
iff its requested units are covered by the updated `avail`; `avail` is never
decremented for the woken waiter, and at most one waiter (the popped head)
is woken per call. -/
theorem signal_spec (s : State) (h : Heap) (u : Nat) :
    (State.signal s h u).1.avail = (s.avail + u) % U64MOD ∧
    (State.signal s h u).1.closed = s.closed ∧
    (s.list = [] →
      State.signal s h u = ({ s with avail := (s.avail + u) % U64MOD }, none)) ∧
    (∀ wid rest w, s.list = wid :: rest → h[wid]? = some w →
      (w.units ≤ (s.avail + u) % U64MOD →
        State.signal s h u =
          ({ s with avail := (s.avail + u) % U64MOD, list := rest }, some wid)) ∧
      ((s.avail + u) % U64MOD < w.units →
        State.signal s h u = ({ s with avail := (s.avail + u) % U64MOD }, none))) ∧
    ((Semaphore.signal s h u).2 = h ∨
      ∃ wid, s.list.head? = some wid ∧ (Semaphore.signal s h u).2 = wakeAt h wid) := by
  refine ⟨signal_fst_avail s h u, signal_fst_closed s h u, ?_, ?_, ?_⟩
  · intro hl
    simp [State.signal, hl]
  · intro wid rest w hl hw
    constructor
    · intro hle
      simp [State.signal, hl, hw, hle]
    · intro hlt
      have hnle : ¬w.units ≤ (s.avail + u) % U64MOD := Nat.not_le.mpr hlt
      simp [State.signal, hl, hw, hnle]
  · rcases signal_pops_head s h u with hnone | ⟨wid, rest, hl, hsome⟩
    · left
      rw [Semaphore.signal_eq, hnone]
    · right
      exact ⟨wid, by simp [hl], by rw [Semaphore.signal_eq, hsome]⟩

theorem signal_spec_witness :
    State.signal { avail := 3, list := [0], closed := true }
        [{ units := 2, woken := false, waker := some () }] 1
      = ({ avail := (3 + 1) % U64MOD, list := [], closed := true }, some 0) :=
  ((signal_spec { avail := 3, list := [0], closed := true }
      [{ units := 2, woken := false, waker := some () }] 1).2.2.2.1
    0 [] { units := 2, woken := false, waker := some () } rfl rfl).1
    (by norm_num [U64MOD])

/-! ## C9: unchecked overflow in `State::signal` -/

/-- C9: the `self.avail += units` in `State::signal` is unchecked u64
arithmetic: when `avail + u` exceeds the u64 range the addition wraps around
modulo `2^64` (the result is `avail + u - 2^64`, strictly below the old
`avail`), with no error reported and no saturation. -/
theorem signal_overflow_wraps (s : State) (h : Heap) (u : Nat)
    (hs : s.avail < U64MOD) (hu : u < U64MOD) (hover : U64MOD ≤ s.avail + u) :
    (State.signal s h u).1.avail = s.avail + u - U64MOD ∧
    (State.signal s h u).1.avail < s.avail := by
  have hmod : (s.avail + u) % U64MOD = s.avail + u - U64MOD := by
    rw [Nat.mod_eq_sub_mod hover]
    exact Nat.mod_eq_of_lt (by omega)
  constructor
  · rw [signal_fst_avail, hmod]
  · rw [signal_fst_avail, hmod]
    omega

theorem signal_overflow_wraps_witness :
    (State.signal { avail := U64MOD - 1, list := [], closed := false } [] 2).1.avail
        = U64MOD - 1 + 2 - U64MOD ∧
    (State.signal { avail := U64MOD - 1, list := [], closed := false } [] 2).1.avail
        < U64MOD - 1 :=
  signal_overflow_wraps { avail := U64MOD - 1, list := [], closed := false } [] 2
    (by norm_num [U64MOD]) (by norm_num [U64MOD]) (by norm_num [U64MOD])

/-! ## C10: one-shot waking of a `Waiter` -/

/-- C10: `Waiter::wake` fires at most once and only when a waker has been
registered by a poll: it sets `woken` and fires exactly when `waker` is
present (taking it, so a second `wake` never fires); called before the first
poll (fresh waiter, `waker = None`) it is a no-op — `woken` stays `false`,
so a later poll still returns `Pending` and the wakeup is lost. -/
theorem waiter_wake_spec (w : Waiter) (u : Nat) :
    Waiter.wake (Waiter.new u) = (Waiter.new u, false) ∧
    (Waiter.poll (Waiter.wake (Waiter.new u)).1).1 = PollRes.pending ∧
    ((Waiter.wake w).2 = true ↔ w.waker.isSome) ∧
    ((Waiter.wake w).2 = true → (Waiter.wake w).1.woken = true) ∧
    (w.waker = none → Waiter.wake w = (w, false)) ∧
    (Waiter.wake (Waiter.wake w).1).2 = false ∧
    (w.woken = false → Waiter.poll w = (PollRes.pending, { w with waker := some () })) := by
  obtain ⟨wu, wo, wk⟩ := w
  cases wk <;> cases wo <;>
    simp [Waiter.wake, Waiter.new, Waiter.poll]

theorem waiter_wake_spec_witness :
    Waiter.wake { units := 7, woken := false, waker := none }
        = ({ units := 7, woken := false, waker := none }, false) ∧
    Waiter.poll { units := 7, woken := false, waker := some () }
        = (PollRes.pending, { units := 7, woken := false, waker := some () }) :=
  ⟨(waiter_wake_spec { units := 7, woken := false, waker := none } 7).2.2.2.2.1 rfl,
   (waiter_wake_spec { units := 7, woken := false, waker := some () } 7).2.2.2.2.2.2 rfl⟩

/-! ## Heap lemmas for `State::close`'s queue-draining loop -/

theorem wakeAt_get_ne (h : Heap) (wid wid' : Nat) (hne : wid' ≠ wid) :
    (wakeAt h wid)[wid']? = h[wid']? := by
  unfold wakeAt
  cases hg : h[wid]? with
  | none => rfl
  | some w => exact List.getElem?_set_ne (fun he => hne he.symm)

theorem wakeAt_get_self (h : Heap) (wid : Nat) :
    (wakeAt h wid)[wid]? = (h[wid]?).map fun w => (Waiter.wake w).1 := by
  unfold wakeAt
  cases hg : h[wid]? with
  | none => simp [hg]
  | some w =>
    have hlt : wid < h.length := by
      by_contra hge
      rw [List.getElem?_eq_none (Nat.le_of_not_lt hge)] at hg
      exact Option.noConfusion hg
    rw [List.getElem?_set_self hlt]
    rfl

theorem foldl_wakeAt_not_mem (l : List Nat) (h : Heap) (wid : Nat) (hw : wid ∉ l) :
    (l.foldl wakeAt h)[wid]? = h[wid]? := by
  induction l generalizing h with
  | nil => rfl
  | cons a t ih =>
    have hne : wid ≠ a := by
      intro he
      exact hw (by rw [he]; exact List.mem_cons_self a t)
    have hnt : wid ∉ t := fun ht => hw (List.mem_cons_of_mem a ht)
    rw [List.foldl_cons, ih _ hnt, wakeAt_get_ne _ _ _ hne]

theorem foldl_wakeAt_mem (l : List Nat) (h : Heap) (wid : Nat)
    (hnd : l.Nodup) (hw : wid ∈ l) :
    (l.foldl wakeAt h)[wid]? = (h[wid]?).map fun w => (Waiter.wake w).1 := by
  induction l generalizing h with
  | nil => exact absurd hw (List.not_mem_nil wid)
  | cons a t ih =>
    rw [List.foldl_cons]
    rcases List.mem_cons.mp hw with heq | hmem
    · subst heq
      rw [foldl_wakeAt_not_mem t _ wid (List.Nodup.not_mem hnd), wakeAt_get_self]
    · have hne : wid ≠ a := by
        intro he
        exact (List.Nodup.not_mem hnd) (by rw [← he]; exact hmem)
      rw [ih _ (List.Nodup.of_cons hnd) hmem, wakeAt_get_ne _ _ _ hne]

/-- A closed semaphore fails `try_acquire` immediately (state untouched), so
one iteration of the `acquire` loop returns the broken error without
queueing. -/
theorem acquireStep_closed (s : State) (h : Heap) (n : Nat) (hcl : s.closed = true) :
    State.try_acquire s n = (Except.error SemError.brokenSemaphore, s) ∧
    Semaphore.acquireStep s h n = AcquireStep.broken s := by
  have ht : State.try_acquire s n = (Except.error SemError.brokenSemaphore, s) := by
    simp [State.try_acquire, hcl]
  exact ⟨ht, by simp [Semaphore.acquireStep, ht]⟩

/-! ## C5: `State::close` drains and wakes the whole queue -/

/-- C5: `close()` sets `closed` to `true` (and no later operation ever
resets it), pops every queued waiter — waking each one — so the queue is
empty when it returns, and performs no unit accounting: `avail` is
unchanged. -/
theorem close_spec (s : State) (h : Heap) (hnd : s.list.Nodup) :
    (State.close s h).1.closed = true ∧
    (State.close s h).1.list = [] ∧
    (State.close s h).1.avail = s.avail ∧
    (∀ wid ∈ s.list,
      (State.close s h).2[wid]? = (h[wid]?).map fun w => (Waiter.wake w).1) ∧
    (∀ wid, wid ∉ s.list → (State.close s h).2[wid]? = h[wid]?) ∧
    (∀ s' h' n, s'.closed = true →
      (State.try_acquire s' n).2.closed = true ∧
      (State.signal s' h' n).1.closed = true ∧
      (State.queueWaiter s' h' n).1.closed = true ∧
      (State.close s' h').1.closed = true) := by
  refine ⟨rfl, rfl, rfl, ?_, ?_, ?_⟩
  · intro wid hmem
    exact foldl_wakeAt_mem s.list h wid hnd hmem
  · intro wid hnm
    exact foldl_wakeAt_not_mem s.list h wid hnm
  · intro s' h' n hcl
    refine ⟨?_, ?_, hcl, rfl⟩
    · rw [(acquireStep_closed s' h' n hcl).1]
      exact hcl
    · rw [signal_fst_closed]
      exact hcl

theorem close_spec_witness :
    (State.close { avail := 4, list := [0, 1], closed := false }
        [{ units := 2, woken := false, waker := some () },
         { units := 3, woken := false, waker := some () }]).1.avail = 4 ∧
    (State.close { avail := 4, list := [0, 1], closed := false }
        [{ units := 2, woken := false, waker := some () },
         { units := 3, woken := false, waker := some () }]).2[1]?
      = some { units := 3, woken := true, waker := none } :=
  ⟨(close_spec { avail := 4, list := [0, 1], closed := false }
      [{ units := 2, woken := false, waker := some () },
       { units := 3, woken := false, waker := some () }] (by decide)).2.2.1,
   by
    have h1 := (close_spec { avail := 4, list := [0, 1], closed := false }
      [{ units := 2, woken := false, waker := some () },
       { units := 3, woken := false, waker := some () }] (by decide)).2.2.2.1 1 (by decide)
    simpa [Waiter.wake] using h1⟩

/-! ## C4: after `close`, all pending and future acquisitions fail -/

/-- C4: after `close()` the closed flag is set; every later `acquire`
iteration fails immediately with the broken-semaphore error, leaving the
state untouched and enqueueing nothing; and every waiter queued at the
moment of `close` (registered by its poll) is woken, so its poll now
returns `Ready` and its retry runs `try_acquire` against the closed state,
which fails with the same error. -/
theorem close_breaks_acquire (s : State) (h : Heap) (hnd : s.list.Nodup) :
    (State.close s h).1.closed = true ∧
    (∀ n, Semaphore.acquireStep (State.close s h).1 (State.close s h).2 n
        = AcquireStep.broken (State.close s h).1) ∧
    (∀ s' h' n, s'.closed = true →
      State.try_acquire s' n = (Except.error SemError.brokenSemaphore, s') ∧
      Semaphore.acquireStep s' h' n = AcquireStep.broken s') ∧
    (∀ wid ∈ s.list, ∀ w, h[wid]? = some w → w.waker = some () →
      (State.close s h).2[wid]? = some { w with woken := true, waker := none } ∧
      (Waiter.poll { w with woken := true, waker := none }).1 = PollRes.ready) := by
  refine ⟨rfl, ?_, ?_, ?_⟩
  · intro n
    exact (acquireStep_closed (State.close s h).1 (State.close s h).2 n rfl).2
  · intro s' h' n hcl
    exact acquireStep_closed s' h' n hcl
  · intro wid hmem w hw hwaker
    refine ⟨?_, rfl⟩
    have h1 := foldl_wakeAt_mem s.list h wid hnd hmem
    rw [show (State.close s h).2 = s.list.foldl wakeAt h from rfl, h1, hw]
    simp [Waiter.wake, hwaker]

theorem close_breaks_acquire_witness :
    Semaphore.acquireStep
        (State.close { avail := 1, list := [0], closed := false }
          [{ units := 2, woken := false, waker := some () }]).1
        (State.close { avail := 1, list := [0], closed := false }
          [{ units := 2, woken := false, waker := some () }]).2 2
      = AcquireStep.broken
          (State.close { avail := 1, list := [0], closed := false }
            [{ units := 2, woken := false, waker := some () }]).1 ∧
    (State.close { avail := 1, list := [0], closed := false }
        [{ units := 2, woken := false, waker := some () }]).2[0]?
      = some { units := 2, woken := true, waker := none } :=
  ⟨(close_breaks_acquire { avail := 1, list := [0], closed := false }
      [{ units := 2, woken := false, waker := some () }] (by decide)).2.1 2,
   ((close_breaks_acquire { avail := 1, list := [0], closed := false }
      [{ units := 2, woken := false, waker := some () }] (by decide)).2.2.2 0 (by decide)
      { units := 2, woken := false, waker := some () } rfl rfl).1⟩

/-! ## C6: `Permit::drop` is `Semaphore::signal`, and the RAII round trip -/

/-- C6: dropping a `Permit` holding `p.units` performs exactly the state
transition of `Semaphore::signal(p.units)`; consequently acquiring `n` units
(on an open, idle semaphore) and then dropping the permit restores `avail`
to its original value. -/
theorem permit_drop_spec (p : Permit) (s : State) (h : Heap) (n : Nat)
    (hopen : s.closed = false) (hq : s.list = []) (hn : n ≤ s.avail)
    (hlt : s.avail < U64MOD) :
    Permit.drop p s h = Semaphore.signal s h p.units ∧
    (Permit.drop { units := n } (State.try_acquire s n).2 h).1.avail = s.avail := by
  constructor
  · rfl
  · have h2 : (State.try_acquire s n).2 = { s with avail := s.avail - n } := by
      simp [State.try_acquire, hopen, hq, hn]
    rw [h2]
    simp only [Permit.drop, State.signal, hq]
    rw [Nat.sub_add_cancel hn, Nat.mod_eq_of_lt hlt]

theorem permit_drop_spec_witness :
    Permit.drop { units := 4 } { avail := 5, list := [], closed := false } []
        = Semaphore.signal { avail := 5, list := [], closed := false } [] 4 ∧
    (Permit.drop { units := 3 }
        (State.try_acquire { avail := 5, list := [], closed := false } 3).2 []).1.avail
      = 5 :=
  permit_drop_spec { units := 4 } { avail := 5, list := [], closed := false } [] 3
    rfl rfl (by decide) (by norm_num [U64MOD])

/-! ## C7: a failed retry re-queues a fresh waiter at the tail -/

/-- C7: an `acquire` iteration re-runs the full grant check; when the queue
is non-empty (even with `avail ≥ units`) it fails and appends a *fresh*
waiter (`woken = false`, no waker) at the queue tail, so a woken waiter that
retries ends up last — behind every request currently queued, including ones
that arrived after it. -/
theorem acquire_requeues_at_tail (s : State) (h : Heap) (u : Nat)
    (hopen : s.closed = false) (hne : s.list ≠ []) :
    Semaphore.acquireStep s h u
      = AcquireStep.queued { s with list := s.list ++ [h.length] }
          (h ++ [Waiter.new u]) h.length ∧
    (h ++ [Waiter.new u])[h.length]? = some (Waiter.new u) ∧
    (s.list ++ [h.length]).getLast? = some h.length := by
  refine ⟨?_, List.getElem?_concat_length h (Waiter.new u), List.getLast?_concat s.list⟩
  have hie : s.list.isEmpty = false := by
    cases hl : s.list with
    | nil => exact absurd hl hne
    | cons a t => rfl
  have ht : State.try_acquire s u = (Except.ok false, s) := by
    simp [State.try_acquire, hopen, hie]
  simp [Semaphore.acquireStep, ht, State.queueWaiter]

theorem acquire_requeues_at_tail_witness :
    Semaphore.acquireStep { avail := 5, list := [0], closed := false }
        [{ units := 9, woken := false, waker := some () }] 2
      = AcquireStep.queued { avail := 5, list := [0, 1], closed := false }
          [{ units := 9, woken := false, waker := some () }, Waiter.new 2] 1 := by
  have h1 := (acquire_requeues_at_tail { avail := 5, list := [0], closed := false }
    [{ units := 9, woken := false, waker := some () }] 2 rfl (by decide)).1
  simpa using h1

/-! ## Lemmas for the FIFO-scenario and conservation proofs -/

/-- `Semaphore::signal` on an empty queue: add units, wake nobody. -/
theorem signal_nil (s : State) (h : Heap) (u : Nat) (hq : s.list = []) :
    Semaphore.signal s h u = ({ s with avail := (s.avail + u) % U64MOD }, h) := by
  unfold Semaphore.signal
  simp [State.signal, hq]

/-- `Waiter::wake` never changes the requested unit count. -/
theorem wake_units (w : Waiter) : (Waiter.wake w).1.units = w.units := by
  cases hw : w.waker <;> simp [Waiter.wake, hw]

/-- Waking through any pointer preserves every waiter's unit count. -/
theorem wakeAt_units (h : Heap) (wid wid' : Nat) :
    ((wakeAt h wid)[wid']?).map Waiter.units = (h[wid']?).map Waiter.units := by
  by_cases he : wid' = wid
  · subst he
    rw [wakeAt_get_self]
    cases hg : h[wid']? <;> simp [wake_units]
  · rw [wakeAt_get_ne h wid wid' he]

/-- Characterisation of a successful `try_acquire`: it happens only with an
empty queue and sufficient units, and subtracts exactly the request. -/
theorem try_acquire_ok_true (s : State) (u : Nat) (s' : State)
    (hta : State.try_acquire s u = (Except.ok true, s')) :
    s.list = [] ∧ u ≤ s.avail ∧ s' = { s with avail := s.avail - u } := by
  unfold State.try_acquire at hta
  split at hta
  · exact absurd (congrArg Prod.fst hta) (by simp)
  · split at hta
    case isTrue hcond =>
      rcases Bool.and_eq_true_iff.mp hcond with ⟨h1, h2⟩
      refine ⟨List.isEmpty_iff.mp h1, of_decide_eq_true h2, ?_⟩
      have := congrArg Prod.snd hta
      simpa using this.symm
    case isFalse hcond =>
      exact absurd (congrArg Prod.fst hta) (by simp)

/-- Phase 1: every `acquire` issued while `avail = 0` queues (in issue
order) a freshly allocated waiter, which its task then polls. -/
theorem acquirePhase_spec (us : List Nat) (s : State) (h : Heap)
    (hav : s.avail = 0) (hcl : s.closed = false) (hpos : ∀ u ∈ us, 0 < u) :
    acquirePhase us s h
      = ({ s with list := s.list ++ List.range' h.length us.length },
          h ++ us.map polledWaiter) := by
  induction us generalizing s h with
  | nil => simp [acquirePhase]
  | cons u ts ih =>
    have hu : 0 < u := hpos u (List.mem_cons_self u ts)
    have hnle : ¬u ≤ s.avail := by omega
    have ht : State.try_acquire s u = (Except.ok false, s) := by
      simp [State.try_acquire, hcl, hnle]
    have hstep : Semaphore.acquireStep s h u
        = AcquireStep.queued { s with list := s.list ++ [h.length] }
            (h ++ [Waiter.new u]) h.length := by
      simp [Semaphore.acquireStep, ht, State.queueWaiter]
    have hpoll : pollAt (h ++ [Waiter.new u]) h.length = h ++ [polledWaiter u] := by
      unfold pollAt
      rw [List.getElem?_concat_length]
      show List.set (h ++ [Waiter.new u]) h.length (Waiter.poll (Waiter.new u)).2
          = h ++ [polledWaiter u]
      rw [List.set_append_right _ _ (Nat.le_refl _)]
      simp [Waiter.poll, Waiter.new, polledWaiter]
    have ihh := ih { avail := s.avail, list := s.list ++ [h.length], closed := s.closed }
      (h ++ [polledWaiter u]) hav hcl (fun v hv => hpos v (List.mem_cons_of_mem u hv))
    simp only [acquirePhase]
    rw [hstep]
    simp only []
    rw [hpoll, ihh]
    simp [List.append_assoc, List.range']

/-- The heap built by phase 1 matches the queue: pointer `pre.length + i`
holds a polled waiter requesting `us[i]` units. -/
theorem polled_match (pre : Heap) (us : List Nat) :
    List.Forall₂
      (fun wid u => ((pre ++ us.map polledWaiter)[wid]?).map Waiter.units = some u)
      (List.range' pre.length us.length) us := by
  induction us generalizing pre with
  | nil => exact List.Forall₂.nil
  | cons u ts ih =>
    refine List.Forall₂.cons ?_ ?_
    · rw [List.getElem?_append_right (Nat.le_refl _)]
      simp [polledWaiter]
    · have h1 := ih (pre ++ [polledWaiter u])
      simpa [List.append_assoc] using h1

/-- Phase 2: with the queue holding `wids` whose waiters request `us`, a
signal per queued request (in order, each adding the head's units) pops and
wakes every waiter; the queue ends empty and `avail` ends at the sum. -/
theorem signalPhase_spec (us : List Nat) : ∀ (wids : List Nat) (s : State) (h : Heap),
    s.list = wids →
    List.Forall₂ (fun wid u => (h[wid]?).map Waiter.units = some u) wids us →
    s.avail + us.sum < U64MOD →
    (signalPhase us s h).1.list = [] ∧
    (signalPhase us s h).1.avail = s.avail + us.sum ∧
    (signalPhase us s h).1.closed = s.closed := by
  induction us with
  | nil =>
    intro wids s h hl hm hb
    cases hm
    exact ⟨by simpa using hl, by simp [signalPhase], rfl⟩
  | cons u ts ih =>
    intro wids s h hl hm hb
    cases hm with
    | cons hwu hts =>
      rename_i wid wids'
      rw [List.sum_cons] at hb
      obtain ⟨w, hw, hwu'⟩ : ∃ w, h[wid]? = some w ∧ w.units = u := by
        cases hg : h[wid]? with
        | none => rw [hg] at hwu; exact absurd hwu (by simp)
        | some w => rw [hg] at hwu; exact ⟨w, rfl, by simpa using hwu⟩
      have hmod : (s.avail + u) % U64MOD = s.avail + u := Nat.mod_eq_of_lt (by omega)
      have hss : State.signal s h u
          = ({ s with avail := s.avail + u, list := wids' }, some wid) := by
        simp [State.signal, hl, hw, hmod, hwu', Nat.le_add_left]
      have hsig : Semaphore.signal s h u
          = ({ s with avail := s.avail + u, list := wids' }, wakeAt h wid) := by
        unfold Semaphore.signal
        rw [hss]
      have hm' : List.Forall₂
          (fun wid' u' => ((wakeAt h wid)[wid']?).map Waiter.units = some u') wids' ts :=
        hts.imp (fun a b hr => by rw [wakeAt_units]; exact hr)
      have ihh := ih wids' { s with avail := s.avail + u, list := wids' }
        (wakeAt h wid) rfl hm' (by simpa using (by omega : s.avail + u + ts.sum < U64MOD))
      simp only [signalPhase]
      rw [hsig]
      simp only []
      refine ⟨ihh.1, ?_, ihh.2.2⟩
      rw [ihh.2.1]
      simp [Nat.add_assoc]

/-- Phase 3: with the queue empty and enough units for every retry, the
tasks are granted in exactly the order they run, each grant subtracting its
request. -/
theorem retryPhase_spec (ts : List (Nat × Nat)) : ∀ (s : State) (h : Heap),
    s.list = [] → s.closed = false →
    (ts.map Prod.snd).sum ≤ s.avail →
    (retryPhase ts s h).2.2 = ts.map Prod.fst ∧
    (retryPhase ts s h).1.avail = s.avail - (ts.map Prod.snd).sum := by
  induction ts with
  | nil =>
    intro s h hl hcl hav
    exact ⟨rfl, by simp [retryPhase]⟩
  | cons p ts ih =>
    intro s h hl hcl hav
    obtain ⟨tid, u⟩ := p
    rw [List.map_cons, List.sum_cons] at hav
    have hu : u ≤ s.avail := by omega
    have ht : State.try_acquire s u
        = (Except.ok true, { s with avail := s.avail - u }) := by
      simp [State.try_acquire, hcl, hl, hu]
    have hstep : Semaphore.acquireStep s h u
        = AcquireStep.granted { s with avail := s.avail - u } := by
      simp [Semaphore.acquireStep, ht]
    have ihh := ih { s with avail := s.avail - u } h hl hcl
      (show (List.map Prod.snd ts).sum ≤ s.avail - u by omega)
    rcases hre : retryPhase ts { s with avail := s.avail - u } h with ⟨sf, hf, g⟩
    rw [hre] at ihh
    simp only [retryPhase]
    rw [hstep]
    simp only []
    rw [hre]
    refine ⟨?_, ?_⟩
    · simp only [List.map_cons]
      exact congrArg (tid :: ·) ihh.1
    · rw [List.map_cons, List.sum_cons]
      have h2 := ihh.2
      simp only [] at h2
      rw [h2]
      omega

/-! ## C2: FIFO grant order -/

/-- C2: when every `acquire` is issued while no units are available and the
signals then release exactly each successive head's units, the tasks are
granted in exactly the order their `acquire` calls were issued (`grants =
range`); moreover any request granted immediately must have seen an empty
queue, so a request arriving while the queue is non-empty is never granted
ahead of an already-queued request. -/
theorem fifo_grant_order (us : List Nat) (s : State) (n : Nat) (s' : State)
    (hpos : ∀ u ∈ us, 0 < u) (hsum : us.sum < U64MOD)
    (hta : State.try_acquire s n = (Except.ok true, s')) :
    (fifoScenario us).2.2 = List.range us.length ∧
    s.list = [] := by
  refine ⟨?_, (try_acquire_ok_true s n s' hta).1⟩
  have hA := acquirePhase_spec us (State.new 0) [] rfl rfl hpos
  have hm := polled_match [] us
  have hS := signalPhase_spec us (List.range' 0 us.length)
      { State.new 0 with
        list := (State.new 0).list ++ List.range' (List.length ([] : Heap)) us.length }
      ([] ++ List.map polledWaiter us) rfl hm
      (by simpa [State.new] using hsum)
  have hcl2 : (signalPhase us
      { State.new 0 with
        list := (State.new 0).list ++ List.range' (List.length ([] : Heap)) us.length }
      ([] ++ List.map polledWaiter us)).1.closed = false := by
    rw [hS.2.2]
    simp [State.new]
  have hav2 : (List.map Prod.snd us.enum).sum ≤ (signalPhase us
      { State.new 0 with
        list := (State.new 0).list ++ List.range' (List.length ([] : Heap)) us.length }
      ([] ++ List.map polledWaiter us)).1.avail := by
    rw [List.enum_map_snd, hS.2.1]
    simp [State.new]
  have hR := retryPhase_spec us.enum
      (signalPhase us
        { State.new 0 with
          list := (State.new 0).list ++ List.range' (List.length ([] : Heap)) us.length }
        ([] ++ List.map polledWaiter us)).1
      (signalPhase us
        { State.new 0 with
          list := (State.new 0).list ++ List.range' (List.length ([] : Heap)) us.length }
        ([] ++ List.map polledWaiter us)).2
      hS.1 hcl2 hav2
  calc (fifoScenario us).2.2
      = (retryPhase us.enum
          (signalPhase us
            { State.new 0 with
              list := (State.new 0).list
                ++ List.range' (List.length ([] : Heap)) us.length }
            ([] ++ List.map polledWaiter us)).1
          (signalPhase us
            { State.new 0 with
              list := (State.new 0).list
                ++ List.range' (List.length ([] : Heap)) us.length }
            ([] ++ List.map polledWaiter us)).2).2.2 := by
        show (retryPhase us.enum
            (signalPhase us (acquirePhase us (State.new 0) []).1
              (acquirePhase us (State.new 0) []).2).1
            (signalPhase us (acquirePhase us (State.new 0) []).1
              (acquirePhase us (State.new 0) []).2).2).2.2 = _
        rw [hA]
    _ = List.range us.length := by
        rw [hR.1, List.enum_map_fst]

theorem fifo_grant_order_witness :
    (fifoScenario [3, 1, 2]).2.2 = List.range 3 ∧
    (State.new 5).list = [] :=
  fifo_grant_order [3, 1, 2] (State.new 5) 2 { avail := 3, list := [], closed := false }
    (by decide) (by norm_num [U64MOD]) rfl

/-- Invariant of conservation traces: `avail` plus the outstanding unit
counts equals the initial pool, and the queue stays empty. -/
theorem runConserve_invariant (evs : List SemEvent) (a0 : Nat) :
    ∀ (s : State) (h : Heap) (held : List Nat) (res : State × Heap × List Nat),
    s.list = [] → s.avail + held.sum = a0 → a0 < U64MOD →
    runConserve evs s h held = some res →
    res.1.avail + res.2.2.sum = a0 ∧ res.1.list = [] := by
  induction evs with
  | nil =>
    intro s h held res hl hsum ha hrun
    have hres : res = (s, h, held) := by
      simpa [runConserve] using hrun.symm
    rw [hres]
    exact ⟨hsum, hl⟩
  | cons ev evs ih =>
    intro s h held res hl hsum ha hrun
    cases ev with
    | acquire u =>
      rcases hta : State.try_acquire s u with ⟨er, s1⟩
      match er with
      | Except.error e =>
        rw [runConserve, hta] at hrun
        exact absurd hrun (by simp)
      | Except.ok false =>
        rw [runConserve, hta] at hrun
        exact absurd hrun (by simp)
      | Except.ok true =>
        obtain ⟨hl1, hu, hs1⟩ := try_acquire_ok_true s u s1 hta
        rw [runConserve, hta] at hrun
        have hrun' : runConserve evs s1 h (u :: held) = some res := hrun
        refine ih s1 h (u :: held) res ?_ ?_ ha hrun'
        · rw [hs1]
          exact hl1
        · rw [hs1, List.sum_cons]
          simp only []
          omega
    | release u =>
      by_cases hmem : u ∈ held
      · have hsig := signal_nil s h u hl
        have hule : u ≤ held.sum :=
          List.single_le_sum (fun x _ => Nat.zero_le x) u hmem
        have hmod : (s.avail + u) % U64MOD = s.avail + u :=
          Nat.mod_eq_of_lt (by omega)
        have hesum : held.sum = u + (held.erase u).sum := by
          have hperm := List.perm_cons_erase hmem
          rw [hperm.sum_eq, List.sum_cons]
        rw [runConserve, if_pos hmem, hsig] at hrun
        have hrun' : runConserve evs { s with avail := (s.avail + u) % U64MOD } h
            (held.erase u) = some res := hrun
        refine ih { s with avail := (s.avail + u) % U64MOD } h (held.erase u) res hl
          ?_ ha hrun'
        show (s.avail + u) % U64MOD + (held.erase u).sum = a0
        rw [hmod]
        omega
      · rw [runConserve, if_neg hmem] at hrun
        exact absurd hrun (by simp)

/-! ## C8: unit conservation -/

/-- C8: along any trace of immediate grants and releases of held units
(no in-flight acquisitions: the queue stays empty throughout), `avail`
equals the initial unit count of `Semaphore::new` minus the sum of the
units still held — grants subtract exactly the requested amount and
`signal`/`Permit::drop` adds back exactly the released amount. -/
theorem conservation (evs : List SemEvent) (a0 : Nat) (s : State) (h : Heap)
    (held : List Nat) (ha : a0 < U64MOD)
    (hrun : runConserve evs (State.new a0) [] [] = some (s, h, held)) :
    s.avail + held.sum = a0 ∧ s.avail = a0 - held.sum ∧ s.list = [] := by
  have hinv := runConserve_invariant evs a0 (State.new a0) [] [] (s, h, held)
    rfl (by simp [State.new]) ha hrun
  have h1 : s.avail + held.sum = a0 := hinv.1
  exact ⟨h1, by omega, hinv.2⟩

theorem conservation_witness :
    ({ avail := 4, list := [], closed := false } : State).avail + [4, 2].sum = 10 ∧
    ({ avail := 4, list := [], closed := false } : State).avail = 10 - [4, 2].sum ∧
    ({ avail := 4, list := [], closed := false } : State).list = [] :=
  conservation
    [SemEvent.acquire 3, SemEvent.acquire 2, SemEvent.release 3, SemEvent.acquire 4]
    10 { avail := 4, list := [], closed := false } [] [4, 2]
    (by norm_num [U64MOD]) (by decide)
